import Mathlib

/-
Shallow embedding, in Lean 4, of the core logic of the armonite distributed
load-testing tool (a Go program), together with theorems checking its
natural-language specification against the code.

Modelling conventions:
* Go `time.Duration` values (int64 nanoseconds) are modelled as `Int`
  (overflow never matters at the scales the claims quantify over).
* A Go duration *string* is modelled by its `time.ParseDuration` result:
  `none` for an unparseable string, `some n` for a string that parses to
  `n` nanoseconds (`DurStr` below).  This abstracts Go's duration grammar
  while keeping the parse-failure branches of the code faithful.
* Go `float64` arithmetic (progress ratios, latency averages, Seconds())
  is modelled as exact rational arithmetic over `ℚ`; `int(x)` conversion
  is truncation toward zero (`truncQ`), `fmt.Sprintf "%.0f"` is rounding
  to nearest with ties to even (`roundHalfEven`), as in Go.
* Go maps used as counters are modelled as association lists with upsert.
-/

namespace Armonite

/-- Go `time.Duration`: a number of nanoseconds. -/
abbrev Dur := Int

/-- A Go duration string, modelled by its `time.ParseDuration` result:
`none` when the string is unparseable, `some n` when it parses to `n` ns. -/
abbrev DurStr := Option Int

/-- Executable floor of a rational: `q.num / q.den` with Euclidean division
(the divisor is positive, so this is the floor); agrees with `Int.floor`. -/
def floorQ (q : ℚ) : Int := q.num / (q.den : Int)

/-- Go conversion `int(x)` from float64 to int truncates toward zero. -/
def truncQ (q : ℚ) : Int := if 0 ≤ q then floorQ q else -floorQ (-q)

/-- Go `fmt.Sprintf("%.0f", x)`: round to nearest integer, ties to even. -/
def roundHalfEven (q : ℚ) : Int :=
  let f := floorQ q
  if q - (f : ℚ) < 1/2 then f
  else if (1 : ℚ)/2 < q - (f : ℚ) then f + 1
  else if f % 2 = 0 then f else f + 1

/-! ## Ramp-up strategy data model (ramp_up.go, src/unnamed/part_000) -/

/-- Go `RampPhase`: a single phase of a ramp-up strategy. -/
structure RampPhase where
  duration : DurStr
  concurrency : Int
  mode : String
  deriving DecidableEq

/-- Go `RampUpStrategy` (the Go `Type` field is a string type). -/
structure RampUpStrategy where
  type : String
  duration : DurStr
  phases : List RampPhase
  deriving DecidableEq

def rampUpTypeImmediate : String := "immediate"
def rampUpTypeLinear : String := "linear"
def rampUpTypeStep : String := "step"
def rampUpTypeCustom : String := "custom"

/-- Go `RampUpCalculator`: strategy plus the parsed total duration. -/
structure RampUpCalculator where
  strategy : RampUpStrategy
  maxConcurrency : Int
  duration : Dur
  deriving DecidableEq

/-- Go `NewRampUpCalculator`: fails when the strategy duration is unparseable. -/
def newRampUpCalculator (strategy : RampUpStrategy) (maxConcurrency : Int) :
    Option RampUpCalculator :=
  match strategy.duration with
  | none => none
  | some d => some ⟨strategy, maxConcurrency, d⟩

/-- The loop body of `getPhaseBasedConcurrency`: walk the phases keeping a
cumulative duration; a phase whose duration does not parse is skipped
(the Go loop does `continue`). -/
def phaseWalk (elapsed : Dur) (maxC : Int) : List RampPhase → Dur → Int
  | [], _ => maxC
  | phase :: rest, cum =>
    match phase.duration with
    | none => phaseWalk elapsed maxC rest cum
    | some d =>
      if elapsed ≤ cum + d then phase.concurrency
      else phaseWalk elapsed maxC rest (cum + d)

/-- Go `getPhaseBasedConcurrency` (the elapsed time is passed explicitly;
the Go method also records the active phase index into the execution
record, bookkeeping that does not affect the returned target). -/
def getPhaseBasedConcurrency (rc : RampUpCalculator) (elapsed : Dur) : Int :=
  if rc.strategy.phases = [] then rc.maxConcurrency
  else phaseWalk elapsed rc.maxConcurrency rc.strategy.phases 0

/-- Spec-side cumulative phase walk, written from the spec's words for
comparison with the code: entries are (parsed duration, concurrency); the
active phase is the first whose cumulative end is not before `elapsed`;
past all phases the target is the max concurrency. -/
def specPhaseTarget (elapsed : Dur) (maxC : Int) : List (Dur × Int) → Dur → Int
  | [], _ => maxC
  | (d, cc) :: rest, cum =>
    if elapsed ≤ cum + d then cc else specPhaseTarget elapsed maxC rest (cum + d)

/-- Go `GetCurrentConcurrency`: the Go switch over the strategy type.
`elapsed = time.Since(execution.StartTime)` is passed explicitly. -/
def GetCurrentConcurrency (rc : RampUpCalculator) (elapsed : Dur) : Int :=
  if rc.strategy.type = rampUpTypeImmediate then rc.maxConcurrency
  else if rc.strategy.type = rampUpTypeLinear then
    if rc.duration ≤ elapsed then rc.maxConcurrency
    else
      truncQ ((rc.maxConcurrency : ℚ) * ((elapsed : ℚ) / (rc.duration : ℚ)))
  else if rc.strategy.type = rampUpTypeStep ∨ rc.strategy.type = rampUpTypeCustom then
    getPhaseBasedConcurrency rc elapsed
  else rc.maxConcurrency

/-- Go `IsComplete`: the ramp-up is finished once elapsed ≥ duration. -/
def IsComplete (rc : RampUpCalculator) (elapsed : Dur) : Bool :=
  decide (rc.duration ≤ elapsed)

/-- Go `parseOrDefault`: parse a duration string with a fallback. -/
def parseOrDefault (duration : DurStr) (defaultDuration : Dur) : Dur :=
  duration.getD defaultDuration

/-- Go `CreateStepRampUp`: builds a step strategy; `steps` defaults to 3 when
not positive; every phase gets the duration string
`fmt.Sprintf("%.0fs", parseOrDefault(duration, 60s).Seconds()/steps)`
(whole seconds, ties to even) and concurrency `(i+1)*100/steps`
(Go integer division; a percentage, not scaled by any max concurrency). -/
def CreateStepRampUp (duration : DurStr) (steps0 : Int) : RampUpStrategy :=
  let steps := if steps0 ≤ 0 then 3 else steps0
  let stepSeconds : ℚ :=
    (parseOrDefault duration (60 * 1000000000) : ℚ) / 1000000000 / (steps : ℚ)
  let stepDuration : DurStr := some (roundHalfEven stepSeconds * 1000000000)
  { type := rampUpTypeStep
    duration := duration
    phases := (List.range steps.toNat).map (fun i : Nat =>
      { duration := stepDuration
        concurrency := Int.tdiv (((i : Int) + 1) * 100) steps
        mode := "parallel" }) }

/-- The per-phase validation loop of `ValidateRampUpStrategy` (first error
wins); `i` is the reported phase index. -/
def validatePhases (i : Nat) : List RampPhase → Option String
  | [] => none
  | phase :: rest =>
    if phase.duration = none then
      some ("invalid duration for phase " ++ toString i)
    else if phase.concurrency < 0 then
      some ("phase " ++ toString i ++ " concurrency must be non-negative")
    else if phase.mode ≠ "parallel" ∧ phase.mode ≠ "sequential" then
      some ("phase " ++ toString i ++ " mode must be 'parallel' or 'sequential'")
    else validatePhases (i + 1) rest

/-- Go `ValidateRampUpStrategy`: returns `some errorMessage` or `none` (ok).
Phase-level checks run only in the step/custom branch of the Go switch. -/
def ValidateRampUpStrategy (strategy : RampUpStrategy) : Option String :=
  if strategy.duration = none then some "invalid ramp-up duration"
  else if strategy.type = rampUpTypeImmediate ∨ strategy.type = rampUpTypeLinear then
    none
  else if strategy.type = rampUpTypeStep ∨ strategy.type = rampUpTypeCustom then
    if strategy.phases = [] then
      some "phase-based ramp-up strategy must have at least one phase"
    else validatePhases 0 strategy.phases
  else some ("unknown ramp-up strategy type: " ++ strategy.type)

/-! ## Agent metrics (src/agent.go: AgentMetrics, recordRequest, recordError,
resetMetrics) -/

/-- Bump a counter in a Go `map[string]int64` (`m[k]++`). -/
def bumpCode (k : String) : List (String × Int) → List (String × Int)
  | [] => [(k, 1)]
  | (k0, v) :: rest => if k0 = k then (k0, v + 1) :: rest else (k0, v) :: bumpCode k rest

/-- The mutable counter fields of Go's `AgentMetrics` (the id/timestamp
fields and the mutex play no part in the claims). -/
structure AgentMetrics where
  requests : Int
  errors : Int
  avgLatencyMs : ℚ
  minLatencyMs : ℚ
  maxLatencyMs : ℚ
  statusCodes : List (String × Int)
  totalLatency : ℚ

/-- Go `resetMetrics`: zero every counter and make a fresh status-code map. -/
def resetMetrics : AgentMetrics :=
  { requests := 0, errors := 0, avgLatencyMs := 0, minLatencyMs := 0
    maxLatencyMs := 0, statusCodes := [], totalLatency := 0 }

/-- Go `recordRequest`: `latencyMs = float64(latency.Milliseconds())`. -/
def recordRequest (m : AgentMetrics) (statusCode : Int) (latencyMs : Int) : AgentMetrics :=
  let lat : ℚ := (latencyMs : ℚ)
  let requests := m.requests + 1
  let totalLatency := m.totalLatency + lat
  { requests := requests
    errors := m.errors
    avgLatencyMs := totalLatency / (requests : ℚ)
    minLatencyMs :=
      if requests = 1 then lat
      else if lat < m.minLatencyMs then lat else m.minLatencyMs
    maxLatencyMs :=
      if requests = 1 then lat
      else if m.maxLatencyMs < lat then lat else m.maxLatencyMs
    statusCodes := bumpCode (toString statusCode) m.statusCodes
    totalLatency := totalLatency }

/-- Go `recordError`: only the error counter moves. -/
def recordError (m : AgentMetrics) : AgentMetrics :=
  { m with errors := m.errors + 1 }

/-- One step of the agent's metric recording: either a completed request
(`recordRequest`) or a transport-level failure (`recordError`). -/
inductive MetricsOp where
  | request (statusCode : Int) (latencyMs : Int)
  | failure

def applyMetricsOp (m : AgentMetrics) : MetricsOp → AgentMetrics
  | .request c l => recordRequest m c l
  | .failure => recordError m

/-- The metrics an agent reports after any sequence of recording
operations starting from the reset state. -/
def runMetricsOps (ops : List MetricsOp) : AgentMetrics :=
  ops.foldl applyMetricsOp resetMetrics

/-- Sum of the values of the status-code map. -/
def statusCodeTotal (m : AgentMetrics) : Int :=
  (m.statusCodes.map Prod.snd).sum

/-! ## Agent phase execution (src/agent.go: executePhase, executePhaseLoad) -/

/-- Go `executePhase` clamps the commanded phase concurrency to the agent's
declared capacity (`if phaseConcurrency > a.concurrency { phaseConcurrency
= a.concurrency }`). -/
def phaseEffectiveConcurrency (phaseConcurrency agentConcurrency : Int) : Int :=
  if agentConcurrency < phaseConcurrency then agentConcurrency else phaseConcurrency

/-- Number of workers `executePhaseLoad` spawns: the Go loop
`for i := 0; i < concurrency; i++` runs `max 0 concurrency` times. -/
def phaseWorkerCount (phaseConcurrency agentConcurrency : Int) : Nat :=
  (phaseEffectiveConcurrency phaseConcurrency agentConcurrency).toNat

/-! ## String ordering (Go `sort.Strings`: lexicographic byte order; UTF-8
byte order coincides with code-point order, compared here on code points) -/

def listCharLe : List Char → List Char → Bool
  | [], _ => true
  | _ :: _, [] => false
  | c :: cs, d :: ds =>
    if c.toNat < d.toNat then true
    else if d.toNat < c.toNat then false
    else listCharLe cs ds

def strLe (a b : String) : Prop := listCharLe a.data b.data = true

instance : DecidableRel strLe :=
  fun a b => inferInstanceAs (Decidable (listCharLe a.data b.data = true))

/-! ## Phase orchestrator, sequential mode (src/phase.go:
executeSequentialPhase) -/

/-- One START_PHASE publication of the sequential schedule: to which agent,
at which offset after phase entry (the cumulative sleeps before the send),
and the `Duration` carried in the `PhaseInfo` payload. -/
structure PhaseCommandSend where
  agentID : String
  sendOffset : Dur
  duration : Dur
  deriving DecidableEq

/-- Go `executeSequentialPhase`: sort agent ids (`sort.Strings`), divide the
phase duration (default 30s when unparseable) by the number of agents with
Go integer division, and send START_PHASE to the k-th agent after k such
sleeps, carrying `timePerAgent` as the phase duration. -/
def executeSequentialPhase (activeAgents : List String) (phase : RampPhase) :
    List PhaseCommandSend :=
  let agentIDs := activeAgents.insertionSort strLe
  if agentIDs.length = 0 then []
  else
    let phaseDuration := parseOrDefault phase.duration (30 * 1000000000)
    let timePerAgent := Int.tdiv phaseDuration (agentIDs.length : Int)
    agentIDs.enum.map (fun p => ⟨p.2, (p.1 : Int) * timePerAgent, timePerAgent⟩)

/-! ## Messaging subjects (src/agent.go sendExecutionUpdate,
src/config.go startAgentRegistration, src/unnamed/part_010
startTelemetryCollection) -/

/-- Subject on which `sendExecutionUpdate` publishes the agent's execution
status updates (starting/running/stopping/completed + message). -/
def agentExecutionUpdateSubject : String := "armonite.agent.status"

/-- Subject of the coordinator subscription whose handler is
`handleAgentExecutionUpdate` (the one that updates the registry's
`ExecutionState`). -/
def coordinatorExecutionUpdateSubject : String := "armonite.agent.execution"

/-- All subjects the coordinator statically subscribes to
(`startAgentRegistration` and `startTelemetryCollection`). -/
def coordinatorStaticSubscriptions : List String :=
  ["armonite.agent.register", "armonite.agent.heartbeat",
   "armonite.agent.execution", "armonite.telemetry"]

/-- NATS delivers a published message to a subscription exactly when the
subjects match (no wildcard subscriptions are used for these subjects). -/
def natsDelivers (publishSubject subscribeSubject : String) : Bool :=
  publishSubject == subscribeSubject

/-! ## Coordinator data model (src/test_run.go, src/unnamed/part_010) -/

def testRunStatusCreated : String := "created"
def testRunStatusWaiting : String := "waiting_for_agents"
def testRunStatusRunning : String := "running"
def testRunStatusCompleting : String := "completing"
def testRunStatusCompleted : String := "completed"
def testRunStatusFailed : String := "failed"
def testRunStatusCancelled : String := "cancelled"

/-- Per-agent rollup stored by the coordinator (`AgentResult`). -/
structure AgentResult where
  agentID : String
  requests : Int
  errors : Int
  avgLatencyMs : ℚ
  minLatencyMs : ℚ
  maxLatencyMs : ℚ
  statusCodes : List (String × Int)
  deriving DecidableEq

/-- Aggregated results of a finished run (`TestRunResults`). -/
structure TestRunResults where
  totalRequests : Int
  totalErrors : Int
  successRate : ℚ
  avgLatencyMs : ℚ
  minLatencyMs : ℚ
  maxLatencyMs : ℚ
  requestsPerSec : ℚ
  statusCodes : List (String × Int)
  agentResults : List AgentResult
  deriving DecidableEq

/-- The fields of `TestRun` the claims touch.  Timestamps are nanoseconds
since an arbitrary epoch. -/
structure TestRun where
  id : String
  name : String
  status : String
  startedAt : Option Int
  completedAt : Option Int
  results : Option TestRunResults
  deriving DecidableEq

/-- Remove a key from a Go map modelled as an association list. -/
def assocErase (l : List (String × α)) (k : String) : List (String × α) :=
  l.filter (fun p => p.1 ≠ k)

/-- Upsert into a Go map modelled as an association list. -/
def assocPut (l : List (String × α)) (k : String) (v : α) : List (String × α) :=
  if l.any (fun p => p.1 = k) then
    l.map (fun p => if p.1 = k then (k, v) else p)
  else l ++ [(k, v)]

/-- The coordinator state the claims touch: the in-memory run map, the
current-run pointer (by id), per-run agent results, and the persisted
`test_runs` rows (the database). -/
structure Coordinator where
  testRuns : List (String × TestRun)
  currentTestRun : Option String
  agentResults : List (String × List AgentResult)
  database : List (String × TestRun)
  deriving DecidableEq

/-- An HTTP JSON response: status code plus a flat JSON object body
(`gin.H` with string values). -/
structure ApiResponse where
  code : Int
  body : List (String × String)
  deriving DecidableEq

/-! ## DELETE test-run handler (src/test_run_handlers.go
handleDeleteTestRun) -/

/-- Go `handleDeleteTestRun`: 404 when unknown; `http.StatusBadRequest` (400)
with body `error:"Cannot delete active test run", status:<status>` when the
run is running or waiting for agents; otherwise clear the current-run
pointer if it is this run, delete the persisted row and the in-memory run
and agent results, and answer 200. -/
def handleDeleteTestRun (c : Coordinator) (testRunID : String) :
    Coordinator × ApiResponse :=
  match c.testRuns.lookup testRunID with
  | none => (c, ⟨404, [("error", "Test run not found")]⟩)
  | some testRun =>
    if testRun.status = testRunStatusRunning ∨ testRun.status = testRunStatusWaiting then
      (c, ⟨400, [("error", "Cannot delete active test run"), ("status", testRun.status)]⟩)
    else
      let c1 := if c.currentTestRun = some testRunID then
          { c with currentTestRun := none } else c
      ({ c1 with
          database := assocErase c1.database testRunID
          testRuns := assocErase c1.testRuns testRunID
          agentResults := assocErase c1.agentResults testRunID },
        ⟨200, [("message", "Test run deleted")]⟩)

/-! ## Run finalisation (src/test_run.go completeTestRun, TestRun.Complete) -/

/-- Add `v` to a counter in a Go `map[string]int64` (`m[k] += v`). -/
def addCode (k : String) (v : Int) : List (String × Int) → List (String × Int)
  | [] => [(k, v)]
  | (k0, w) :: rest => if k0 = k then (k0, w + v) :: rest else (k0, w) :: addCode k v rest

/-- Accumulator of `completeTestRun`'s aggregation loop. -/
structure ResultAcc where
  totalRequests : Int
  totalErrors : Int
  totalLatency : ℚ
  minLatency : ℚ
  maxLatency : ℚ
  statusCodes : List (String × Int)

/-- One iteration of `completeTestRun`'s loop over the agent results. -/
def completeStep (acc : ResultAcc) (r : AgentResult) : ResultAcc :=
  { totalRequests := acc.totalRequests + r.requests
    totalErrors := acc.totalErrors + r.errors
    totalLatency := acc.totalLatency + r.avgLatencyMs * (r.requests : ℚ)
    minLatency :=
      if 0 < r.minLatencyMs ∧ (acc.minLatency = 0 ∨ r.minLatencyMs < acc.minLatency) then
        r.minLatencyMs
      else acc.minLatency
    maxLatency := if acc.maxLatency < r.maxLatencyMs then r.maxLatencyMs else acc.maxLatency
    statusCodes := r.statusCodes.foldl (fun m p => addCode p.1 p.2 m) acc.statusCodes }

/-- The aggregate `TestRunResults` computed by `completeTestRun` from the
per-agent results and the run's timestamps.  Min/max start from the first
agent result (zero when there is none); `requestsPerSec` is computed from
`testRun.StartedAt`/`testRun.CompletedAt` *as they are at entry*, before
`TestRun.Complete` stamps the completion time. -/
def computeRunResults (agentResults : List AgentResult)
    (startedAt completedAt : Option Int) : TestRunResults :=
  let init : ResultAcc :=
    match agentResults with
    | [] => ⟨0, 0, 0, 0, 0, []⟩
    | r :: _ => ⟨0, 0, 0, r.minLatencyMs, r.maxLatencyMs, []⟩
  let acc := agentResults.foldl completeStep init
  { totalRequests := acc.totalRequests
    totalErrors := acc.totalErrors
    successRate :=
      if 0 < acc.totalRequests then
        ((acc.totalRequests - acc.totalErrors : Int) : ℚ) / (acc.totalRequests : ℚ) * 100
      else 100
    avgLatencyMs :=
      if 0 < acc.totalRequests then acc.totalLatency / (acc.totalRequests : ℚ) else 0
    minLatencyMs := acc.minLatency
    maxLatencyMs := acc.maxLatency
    requestsPerSec :=
      match startedAt, completedAt with
      | some s, some e =>
        let durationSeconds : ℚ := ((e - s : Int) : ℚ) / 1000000000
        if 0 < durationSeconds then (acc.totalRequests : ℚ) / durationSeconds else 0
      | _, _ => 0
    statusCodes := acc.statusCodes
    agentResults := agentResults }

/-- Go `completeTestRun` followed by `TestRun.Complete`: aggregate the
collected agent results, then mark the run completed at `now`, save it,
and clear the current-run pointer if it points at this run. -/
def completeTestRun (c : Coordinator) (testRunID : String) (now : Int) : Coordinator :=
  match c.testRuns.lookup testRunID with
  | none => c
  | some testRun =>
    let agentResults := (c.agentResults.lookup testRunID).getD []
    let results := computeRunResults agentResults testRun.startedAt testRun.completedAt
    let testRun2 := { testRun with
      completedAt := some now
      status := testRunStatusCompleted
      results := some results }
    { c with
        testRuns := assocPut c.testRuns testRunID testRun2
        database := assocPut c.database testRunID testRun2
        currentTestRun :=
          if c.currentTestRun = some testRunID then none else c.currentTestRun }

/-! ## General lemmas -/

theorem floorQ_eq_floor (q : ℚ) : floorQ q = ⌊q⌋ := (Rat.floor_def).symm

theorem truncQ_of_nonneg {q : ℚ} (h : 0 ≤ q) : truncQ q = ⌊q⌋ := by
  simp [truncQ, h, floorQ_eq_floor]

/-- Lemma: `Int.tdiv` (Go's integer division, truncation toward zero) agrees with
the rational floor when both operands are non-negative. -/
theorem tdiv_eq_floor_div {a b : Int} (ha : 0 ≤ a) (hb : 0 < b) :
    a.tdiv b = ⌊(a : ℚ) / (b : ℚ)⌋ := by
  have h3 : ((b.toNat : ℕ) : Int) = b := Int.toNat_of_nonneg hb.le
  have h2 : ⌊(a : ℚ) / ((b.toNat : ℕ) : ℚ)⌋ = a / ((b.toNat : ℕ) : Int) :=
    Rat.floor_intCast_div_natCast a b.toNat
  rw [Int.tdiv_eq_ediv ha hb.le, ← h3, Int.cast_natCast]
  exact h2.symm

theorem listCharLe_total : ∀ as bs : List Char,
    listCharLe as bs = true ∨ listCharLe bs as = true
  | [], _ => Or.inl rfl
  | _ :: _, [] => Or.inr rfl
  | a :: as, b :: bs => by
    rcases Nat.lt_trichotomy a.toNat b.toNat with h | h | h
    · left
      simp [listCharLe, h]
    · have h1 : ¬ a.toNat < b.toNat := by omega
      have h2 : ¬ b.toNat < a.toNat := by omega
      rcases listCharLe_total as bs with ih | ih
      · left
        simp [listCharLe, h1, h2, ih]
      · right
        simp [listCharLe, h1, h2, ih]
    · right
      simp [listCharLe, h]

theorem listCharLe_trans : ∀ as bs cs : List Char,
    listCharLe as bs = true → listCharLe bs cs = true → listCharLe as cs = true
  | [], _, _, _, _ => rfl
  | _ :: _, [], _, h, _ => by simp [listCharLe] at h
  | _ :: _, _ :: _, [], _, h2 => by simp [listCharLe] at h2
  | a :: as, b :: bs, c :: cs, h1, h2 => by
    simp only [listCharLe] at h1 h2 ⊢
    by_cases hba : b.toNat < a.toNat
    · rw [if_neg (by omega), if_pos hba] at h1
      exact absurd h1 (by simp)
    · by_cases hcb : c.toNat < b.toNat
      · rw [if_neg (by omega), if_pos hcb] at h2
        exact absurd h2 (by simp)
      · by_cases hac : a.toNat < c.toNat
        · rw [if_pos hac]
        · rw [if_neg (by omega : ¬ a.toNat < b.toNat), if_neg hba] at h1
          rw [if_neg (by omega : ¬ b.toNat < c.toNat), if_neg hcb] at h2
          rw [if_neg hac, if_neg (by omega)]
          exact listCharLe_trans as bs cs h1 h2

instance : IsTotal String strLe := ⟨fun a b => listCharLe_total a.data b.data⟩
instance : IsTrans String strLe := ⟨fun a b c => listCharLe_trans a.data b.data c.data⟩

example : (["b","a","c"].insertionSort strLe) = ["a","b","c"] := by decide

example : executeSequentialPhase ["b", "c", "a"]
      { duration := some 9000000000, concurrency := 10, mode := "sequential" }
    = [⟨"a", 0, 3000000000⟩, ⟨"b", 3000000000, 3000000000⟩,
       ⟨"c", 6000000000, 3000000000⟩] := by decide

/-! ## C1: CreateStepRampUp -/

/-- C1 counterexample: the claim says phase k of `CreateStepRampUp` has
concurrency `round(k * max_concurrency / N)`.  For `CreateStepRampUp "9s" 3`
(with the spec's full-load reading `max_concurrency = 100`; the function
takes no max-concurrency argument at all) phase 2 gets concurrency
`(2*100)/3 = 66` by Go integer division, while `round(2*100/3) = 67`. -/
theorem createStepRampUp_not_round :
    (CreateStepRampUp (some 9000000000) 3).phases.map RampPhase.concurrency = [33, 66, 100]
    ∧ round ((2 * 100 : ℚ) / 3) = 67
    ∧ (66 : Int) ≠ 67 := by
  refine ⟨by decide, ?_, by decide⟩
  rw [round_eq]
  norm_num

/-- C1 (amended): `CreateStepRampUp` builds exactly N phases (N defaulting
to 3 when the step count is not positive), all with the same duration,
namely `seconds(D)/N` rounded half-to-even to whole seconds (D defaulting
to 60s when unparseable), where phase k (1-indexed) has concurrency
`floor(k·100/N)` — a percentage of full load, independent of any
max-concurrency — and mode `"parallel"`. -/
theorem createStepRampUp_phases (duration : DurStr) (steps0 : Int) :
    (CreateStepRampUp duration steps0).phases
      = (List.range (if steps0 ≤ 0 then 3 else steps0).toNat).map (fun k =>
          { duration := some (roundHalfEven
              ((parseOrDefault duration (60 * 1000000000) : ℚ) / 1000000000
                / (↑(if steps0 ≤ 0 then (3 : Int) else steps0) : ℚ)) * 1000000000)
            concurrency := ⌊((((k : Int) + 1) * 100 : Int) : ℚ)
                / (↑(if steps0 ≤ 0 then (3 : Int) else steps0) : ℚ)⌋
            mode := "parallel" }) := by
  have hpos : 0 < (if steps0 ≤ 0 then (3 : Int) else steps0) := by
    split
    · norm_num
    · omega
  simp only [CreateStepRampUp]
  refine List.map_congr_left (fun k _ => ?_)
  simp only [RampPhase.mk.injEq]
  refine ⟨by trivial, ?_, by trivial⟩
  exact tdiv_eq_floor_div (by positivity) hpos

/-! ## C2: GetCurrentConcurrency, immediate and linear -/

/-- C2: for the immediate strategy the calculator returns the max
concurrency; for the linear strategy (positive parsed duration; the Go
float64 progress arithmetic is modelled exactly over ℚ) it returns
`floor(max · min(1, elapsed/duration))` — 0 at elapsed = 0, max once
elapsed ≥ duration — and the returned target lies in [0, max]. -/
theorem getCurrentConcurrency_immediate_linear (s : RampUpStrategy) (maxC : Int)
    (rc : RampUpCalculator) (elapsed : Dur)
    (hrc : newRampUpCalculator s maxC = some rc)
    (hmax : 0 ≤ maxC) (he : 0 ≤ elapsed) :
    (s.type = rampUpTypeImmediate → GetCurrentConcurrency rc elapsed = maxC)
    ∧ (s.type = rampUpTypeLinear → 0 < rc.duration →
        (GetCurrentConcurrency rc elapsed
            = ⌊(maxC : ℚ) * min 1 ((elapsed : ℚ) / (rc.duration : ℚ))⌋
        ∧ (elapsed = 0 → GetCurrentConcurrency rc elapsed = 0)
        ∧ (rc.duration ≤ elapsed → GetCurrentConcurrency rc elapsed = maxC)
        ∧ 0 ≤ GetCurrentConcurrency rc elapsed
        ∧ GetCurrentConcurrency rc elapsed ≤ maxC)) := by
  obtain ⟨d, hds, rfl⟩ : ∃ d, s.duration = some d ∧ rc = ⟨s, maxC, d⟩ := by
    cases hds : s.duration with
    | none => simp [newRampUpCalculator, hds] at hrc
    | some d =>
      simp only [newRampUpCalculator, hds, Option.some.injEq] at hrc
      exact ⟨d, rfl, hrc.symm⟩
  constructor
  · intro ht
    simp [GetCurrentConcurrency, ht]
  · intro ht hdpos
    have hne : rampUpTypeLinear ≠ rampUpTypeImmediate := by decide
    have hd0 : (0 : Int) < d := hdpos
    have hdq : (0 : ℚ) < (d : ℚ) := by exact_mod_cast hd0
    have hmaxq : (0 : ℚ) ≤ (maxC : ℚ) := by exact_mod_cast hmax
    by_cases hle : d ≤ elapsed
    · have hval : GetCurrentConcurrency ⟨s, maxC, d⟩ elapsed = maxC := by
        simp [GetCurrentConcurrency, ht, hne, hle]
      have hmin : min (1 : ℚ) ((elapsed : ℚ) / (d : ℚ)) = 1 := by
        refine min_eq_left ?_
        rw [one_le_div hdq]
        exact_mod_cast hle
      refine ⟨?_, ?_, fun _ => hval, ?_, ?_⟩
      · rw [hval, hmin, mul_one, Int.floor_intCast]
      · intro h0
        have hcon : d ≤ (0 : Int) := h0 ▸ hle
        exact absurd hcon (by omega)
      · rw [hval]; exact hmax
      · rw [hval]
    · have hlt : elapsed < d := lt_of_not_le hle
      have hval : GetCurrentConcurrency ⟨s, maxC, d⟩ elapsed
          = truncQ ((maxC : ℚ) * ((elapsed : ℚ) / (d : ℚ))) := by
        simp [GetCurrentConcurrency, ht, hne, hle]
      have heq : (0 : ℚ) ≤ (elapsed : ℚ) := by exact_mod_cast he
      have hxnn : (0 : ℚ) ≤ (maxC : ℚ) * ((elapsed : ℚ) / (d : ℚ)) :=
        mul_nonneg hmaxq (div_nonneg heq hdq.le)
      have htr := truncQ_of_nonneg hxnn
      have hmin : min (1 : ℚ) ((elapsed : ℚ) / (d : ℚ)) = (elapsed : ℚ) / (d : ℚ) := by
        refine min_eq_right (le_of_lt ?_)
        rw [div_lt_one hdq]
        exact_mod_cast hlt
      have hprod : (maxC : ℚ) * ((elapsed : ℚ) / (d : ℚ)) ≤ (maxC : ℚ) := by
        have h1 : (elapsed : ℚ) / (d : ℚ) ≤ 1 := by
          rw [div_le_one hdq]
          exact_mod_cast hlt.le
        exact mul_le_of_le_one_right hmaxq h1
      refine ⟨?_, ?_, ?_, ?_, ?_⟩
      · rw [hval, htr, hmin]
      · intro h0
        subst h0
        rw [hval]
        norm_num [truncQ, floorQ_eq_floor]
      · intro hge
        exact absurd hge hle
      · rw [hval, htr]
        exact Int.floor_nonneg.mpr hxnn
      · rw [hval, htr]
        calc ⌊(maxC : ℚ) * ((elapsed : ℚ) / (d : ℚ))⌋ ≤ ⌊(maxC : ℚ)⌋ :=
              Int.floor_le_floor hprod
          _ = maxC := Int.floor_intCast maxC

/-- Witness for C2 at the spec's S3 point: linear strategy, duration 10s,
max = 100, elapsed = 5s. -/
theorem getCurrentConcurrency_linear_witness :
    GetCurrentConcurrency ⟨⟨"linear", some 10000000000, []⟩, 100, 10000000000⟩ 5000000000
      = ⌊(100 : ℚ) * min 1 ((5000000000 : ℚ) / (10000000000 : ℚ))⌋ := by
  have h := getCurrentConcurrency_immediate_linear ⟨"linear", some 10000000000, []⟩ 100
      ⟨⟨"linear", some 10000000000, []⟩, 100, 10000000000⟩ 5000000000 rfl (by decide) (by decide)
  have h2 := (h.2 rfl (by decide)).1
  simpa using h2

/-! ## C3: phase-based target and IsComplete -/

/-- The code's phase walk (which skips unparseable phase durations) agrees
with the spec-side cumulative walk when every phase duration parses. -/
theorem phaseWalk_eq_spec (elapsed : Dur) (maxC : Int) :
    ∀ (phases : List RampPhase) (cum : Dur),
      (∀ p ∈ phases, p.duration ≠ none) →
      phaseWalk elapsed maxC phases cum
        = specPhaseTarget elapsed maxC
            (phases.map (fun p => (p.duration.getD 0, p.concurrency))) cum
  | [], _, _ => rfl
  | p :: rest, cum, hparse => by
    cases hd : p.duration with
    | none => exact absurd hd (hparse p (by simp))
    | some d =>
      simp only [phaseWalk, hd, List.map_cons, specPhaseTarget, Option.getD_some]
      split
      · rfl
      · exact phaseWalk_eq_spec elapsed maxC rest (cum + d)
          (fun q hq => hparse q (by simp [hq]))

/-- C3: for a step or custom strategy whose phases all have parseable
durations, the calculator's target is the concurrency of the first phase
whose cumulative end is ≥ elapsed (max concurrency past all phases), and
`IsComplete` holds iff elapsed ≥ the strategy's parsed total duration. -/
theorem getCurrentConcurrency_phase_based (s : RampUpStrategy) (maxC : Int)
    (rc : RampUpCalculator) (elapsed : Dur)
    (hrc : newRampUpCalculator s maxC = some rc)
    (htype : s.type = rampUpTypeStep ∨ s.type = rampUpTypeCustom)
    (hne : s.phases ≠ [])
    (hparse : ∀ p ∈ s.phases, p.duration ≠ none) :
    GetCurrentConcurrency rc elapsed
        = specPhaseTarget elapsed maxC
            (s.phases.map (fun p => (p.duration.getD 0, p.concurrency))) 0
    ∧ s.duration = some rc.duration
    ∧ (IsComplete rc elapsed = true ↔ rc.duration ≤ elapsed) := by
  obtain ⟨d, hds, rfl⟩ : ∃ d, s.duration = some d ∧ rc = ⟨s, maxC, d⟩ := by
    cases hds : s.duration with
    | none => simp [newRampUpCalculator, hds] at hrc
    | some d =>
      simp only [newRampUpCalculator, hds, Option.some.injEq] at hrc
      exact ⟨d, rfl, hrc.symm⟩
  refine ⟨?_, by simpa using hds, by simp [IsComplete]⟩
  have h1 : GetCurrentConcurrency ⟨s, maxC, d⟩ elapsed
      = getPhaseBasedConcurrency ⟨s, maxC, d⟩ elapsed := by
    rcases htype with ht | ht
    · simp [GetCurrentConcurrency, ht,
        show rampUpTypeStep ≠ rampUpTypeImmediate from by decide,
        show rampUpTypeStep ≠ rampUpTypeLinear from by decide]
    · simp [GetCurrentConcurrency, ht,
        show rampUpTypeCustom ≠ rampUpTypeImmediate from by decide,
        show rampUpTypeCustom ≠ rampUpTypeLinear from by decide]
  rw [h1]
  have h2 : getPhaseBasedConcurrency ⟨s, maxC, d⟩ elapsed
      = phaseWalk elapsed maxC s.phases 0 := by
    simp only [getPhaseBasedConcurrency]
    exact if_neg hne
  rw [h2]
  exact phaseWalk_eq_spec elapsed maxC s.phases 0 hparse

/-- Witness for C3: the spec's custom example (30s@25, 30s@75, max 200) at
elapsed 45s: the active phase is the second one, target 75. -/
theorem getCurrentConcurrency_phase_based_witness :
    GetCurrentConcurrency ⟨⟨"custom", some 60000000000,
        [⟨some 30000000000, 25, "parallel"⟩, ⟨some 30000000000, 75, "parallel"⟩]⟩,
        200, 60000000000⟩ 45000000000
      = specPhaseTarget 45000000000 200 [(30000000000, 25), (30000000000, 75)] 0
    ∧ specPhaseTarget 45000000000 200 [(30000000000, 25), (30000000000, 75)] 0 = 75
    ∧ IsComplete ⟨⟨"custom", some 60000000000,
        [⟨some 30000000000, 25, "parallel"⟩, ⟨some 30000000000, 75, "parallel"⟩]⟩,
        200, 60000000000⟩ 45000000000 = false := by
  have h := getCurrentConcurrency_phase_based
      ⟨"custom", some 60000000000,
        [⟨some 30000000000, 25, "parallel"⟩, ⟨some 30000000000, 75, "parallel"⟩]⟩ 200
      ⟨⟨"custom", some 60000000000,
        [⟨some 30000000000, 25, "parallel"⟩, ⟨some 30000000000, 75, "parallel"⟩]⟩,
        200, 60000000000⟩ 45000000000
      rfl (Or.inr rfl) (by decide) (by decide)
  exact ⟨by simpa using h.1, by decide, by decide⟩

/-! ## C4: agent metrics counters -/

/-- Bumping a status-code counter adds exactly one to the total count. -/
theorem bumpCode_sum (k : String) (codes : List (String × Int)) :
    ((bumpCode k codes).map Prod.snd).sum = (codes.map Prod.snd).sum + 1 := by
  induction codes with
  | nil => simp [bumpCode]
  | cons p rest ih =>
    obtain ⟨k0, v⟩ := p
    by_cases hk : k0 = k
    · simp only [bumpCode, if_pos hk, List.map_cons, List.sum_cons]
      omega
    · simp only [bumpCode, if_neg hk, List.map_cons, List.sum_cons, ih]
      omega

/-- Invariant maintained by every recording step: the status-code total
equals the request counter, and the error counter is non-negative. -/
theorem runMetricsOps_invariant (ops : List MetricsOp) :
    statusCodeTotal (runMetricsOps ops) = (runMetricsOps ops).requests
    ∧ 0 ≤ (runMetricsOps ops).errors := by
  suffices h : ∀ m : AgentMetrics,
      statusCodeTotal m = m.requests → 0 ≤ m.errors →
      statusCodeTotal (ops.foldl applyMetricsOp m) = (ops.foldl applyMetricsOp m).requests
      ∧ 0 ≤ (ops.foldl applyMetricsOp m).errors by
    exact h resetMetrics (by decide) (by decide)
  induction ops with
  | nil => exact fun m h1 h2 => ⟨h1, h2⟩
  | cons op rest ih =>
    intro m h1 h2
    apply ih
    · cases op with
      | request c l =>
        simp only [applyMetricsOp, recordRequest, statusCodeTotal, bumpCode_sum]
        simp only [statusCodeTotal] at h1
        omega
      | failure => simpa [applyMetricsOp, recordError, statusCodeTotal] using h1
    · cases op with
      | request c l => simpa [applyMetricsOp, recordRequest] using h2
      | failure =>
        simp only [applyMetricsOp, recordError]
        omega

/-- C4 counterexample: after one successful request and two transport
errors the counters read requests = 1, errors = 2, violating the claimed
`errors ≤ requests` (recordError moves only the error counter). -/
theorem metrics_errors_can_exceed_requests :
    (runMetricsOps [.request 200 5, .failure, .failure]).requests = 1
    ∧ (runMetricsOps [.request 200 5, .failure, .failure]).errors = 2
    ∧ ¬ ((runMetricsOps [.request 200 5, .failure, .failure]).errors
          ≤ (runMetricsOps [.request 200 5, .failure, .failure]).requests) := by
  refine ⟨by decide, by decide, by decide⟩

/-- C4 (amended): for every sequence of recordRequest/recordError
operations from the reset state, the sum of the status-code counts equals
the request counter (recordRequest bumps exactly one bucket), and hence is
at least requests − errors; no inequality between errors and requests is
maintained. -/
theorem metrics_statusCodes_requests (ops : List MetricsOp) :
    statusCodeTotal (runMetricsOps ops) = (runMetricsOps ops).requests
    ∧ (runMetricsOps ops).requests - (runMetricsOps ops).errors
        ≤ statusCodeTotal (runMetricsOps ops) := by
  obtain ⟨h1, h2⟩ := runMetricsOps_invariant ops
  exact ⟨h1, by omega⟩

/-! ## C9: execution-update subjects -/

/-- C9: the agent publishes execution status updates on
`armonite.agent.status`, but the coordinator's execution-update
subscription listens on `armonite.agent.execution` (and none of the
coordinator's static subscriptions covers `armonite.agent.status`), so
the updates are never delivered to the registry. -/
theorem executionUpdate_subject_mismatch :
    agentExecutionUpdateSubject = "armonite.agent.status"
    ∧ coordinatorExecutionUpdateSubject = "armonite.agent.execution"
    ∧ agentExecutionUpdateSubject ≠ coordinatorExecutionUpdateSubject
    ∧ natsDelivers agentExecutionUpdateSubject coordinatorExecutionUpdateSubject = false
    ∧ agentExecutionUpdateSubject ∉ coordinatorStaticSubscriptions := by
  refine ⟨rfl, rfl, by decide, by decide, by decide⟩

/-! ## C10: phase concurrency clamping -/

/-- C10: an agent executes a phase with `min(P, C)` workers, where P is the
commanded phase concurrency and C the agent's declared concurrency; the
worker count never exceeds the declared capacity. -/
theorem phaseWorkerCount_min_capacity (P C : Int) (hP : 0 ≤ P) (hC : 0 ≤ C) :
    (phaseWorkerCount P C : Int) = min P C ∧ (phaseWorkerCount P C : Int) ≤ C := by
  unfold phaseWorkerCount phaseEffectiveConcurrency
  split_ifs with h
  · rw [Int.toNat_of_nonneg hC]
    constructor
    · rw [min_def]
      split_ifs <;> omega
    · exact le_refl C
  · rw [Int.toNat_of_nonneg hP]
    constructor
    · rw [min_def]
      split_ifs <;> omega
    · omega

/-- Witness for C10: commanded concurrency 250 against declared capacity
100 yields 100 workers. -/
theorem phaseWorkerCount_min_capacity_witness :
    ((0 : Int) ≤ 250 ∧ (0 : Int) ≤ 100)
    ∧ ((phaseWorkerCount 250 100 : Int) = min 250 100
        ∧ (phaseWorkerCount 250 100 : Int) ≤ 100) :=
  ⟨⟨by decide, by decide⟩, phaseWorkerCount_min_capacity 250 100 (by decide) (by decide)⟩

/-! ## C7: sequential phase schedule -/

/-- C7: for a sequential phase with parseable duration D over a non-empty
agent snapshot, the orchestrator sorts the agent ids (the sorted list is
ordered and a permutation of the snapshot), sends one START_PHASE per
agent, and the k-th send (0-indexed, in sorted order) happens at offset
k·(D/n) carrying duration D/n, with n the number of agents and `/` Go
integer division. -/
theorem executeSequentialPhase_schedule (agents : List String) (phase : RampPhase)
    (D : Int) (hne : agents ≠ []) (hdur : phase.duration = some D) :
    List.Sorted strLe (agents.insertionSort strLe)
    ∧ List.Perm (agents.insertionSort strLe) agents
    ∧ (executeSequentialPhase agents phase).length = agents.length
    ∧ ∀ k : Nat,
        (executeSequentialPhase agents phase)[k]?
          = ((agents.insertionSort strLe)[k]?).map
              (fun a => ⟨a, (k : Int) * Int.tdiv D (agents.length : Int),
                Int.tdiv D (agents.length : Int)⟩) := by
  have hlen : (agents.insertionSort strLe).length = agents.length :=
    List.length_insertionSort strLe agents
  have hlen0 : agents.length ≠ 0 := by
    cases agents with
    | nil => exact absurd rfl hne
    | cons a l => simp
  have hguard : ¬ ((agents.insertionSort strLe).length = 0) := by
    rw [hlen]; exact hlen0
  refine ⟨List.sorted_insertionSort strLe agents, List.perm_insertionSort strLe agents,
    ?_, ?_⟩
  · simp only [executeSequentialPhase]
    rw [if_neg hguard]
    simp [hlen]
  · intro k
    simp only [executeSequentialPhase]
    rw [if_neg hguard]
    simp only [parseOrDefault, hdur, Option.getD_some]
    rw [List.getElem?_map, List.getElem?_enum, hlen]
    cases (agents.insertionSort strLe)[k]? <;> simp

/-- Witness for C7 at the spec's S4 scenario: agents sorted to [a,b,c],
one 9s sequential phase; the third send goes to c at offset 2·3s = 6s with
duration 3s. -/
theorem executeSequentialPhase_schedule_witness :
    (["b", "c", "a"] ≠ ([] : List String))
    ∧ (executeSequentialPhase ["b", "c", "a"]
          { duration := some 9000000000, concurrency := 10, mode := "sequential" })[2]?
        = some ⟨"c", 6000000000, 3000000000⟩ := by
  refine ⟨by decide, ?_⟩
  have h := executeSequentialPhase_schedule ["b", "c", "a"]
      { duration := some 9000000000, concurrency := 10, mode := "sequential" }
      9000000000 (by decide) rfl
  have h4 := h.2.2.2 2
  rw [show (["b", "c", "a"].insertionSort strLe) = ["a", "b", "c"] from by decide] at h4
  rw [h4]
  decide

/-! ## C5: deleting a test run -/

/-- C5 counterexample: deleting a `running` run answers HTTP 400 (the Go
handler uses `http.StatusBadRequest`), not 409 as claimed; and a `created`
run — not a terminal state — is deleted successfully with 200. -/
theorem handleDeleteTestRun_status_400 :
    ((handleDeleteTestRun
        ⟨[("r1", ⟨"r1", "t", "running", none, none, none⟩),
          ("r2", ⟨"r2", "t", "created", none, none, none⟩)], some "r1", [],
          [("r1", ⟨"r1", "t", "running", none, none, none⟩),
           ("r2", ⟨"r2", "t", "created", none, none, none⟩)]⟩ "r1").2
      = ⟨400, [("error", "Cannot delete active test run"), ("status", "running")]⟩
      ∧ (400 : Int) ≠ 409)
    ∧ ((handleDeleteTestRun
        ⟨[("r1", ⟨"r1", "t", "running", none, none, none⟩),
          ("r2", ⟨"r2", "t", "created", none, none, none⟩)], some "r1", [],
          [("r1", ⟨"r1", "t", "running", none, none, none⟩),
           ("r2", ⟨"r2", "t", "created", none, none, none⟩)]⟩ "r2").2
      = ⟨200, [("message", "Test run deleted")]⟩
      ∧ "created" ≠ testRunStatusCompleted
      ∧ "created" ≠ testRunStatusFailed
      ∧ "created" ≠ testRunStatusCancelled) := by
  refine ⟨⟨by decide, by decide⟩, ⟨by decide, by decide, by decide, by decide⟩⟩

/-- C5 (amended): deleting a run with status running or waiting_for_agents
fails with HTTP 400 (not 409) and body
`error:"Cannot delete active test run", status:<status>`, leaving the
coordinator state (in-memory and persisted) unchanged; deletion succeeds
(200) exactly when the run exists with any other status — including the
non-terminal `created` and `completing` — removing the run from the
in-memory map, the agent results, and the database, and clearing the
current-run pointer when it pointed at this run. -/
theorem handleDeleteTestRun_spec (c : Coordinator) (id : String) (tr : TestRun)
    (hfound : c.testRuns.lookup id = some tr) :
    ((tr.status = testRunStatusRunning ∨ tr.status = testRunStatusWaiting) →
      handleDeleteTestRun c id
        = (c, ⟨400, [("error", "Cannot delete active test run"), ("status", tr.status)]⟩))
    ∧ (tr.status ≠ testRunStatusRunning → tr.status ≠ testRunStatusWaiting →
      ((handleDeleteTestRun c id).2 = ⟨200, [("message", "Test run deleted")]⟩
        ∧ (handleDeleteTestRun c id).1.testRuns = assocErase c.testRuns id
        ∧ (handleDeleteTestRun c id).1.database = assocErase c.database id
        ∧ (handleDeleteTestRun c id).1.agentResults = assocErase c.agentResults id
        ∧ (handleDeleteTestRun c id).1.currentTestRun ≠ some id)) := by
  constructor
  · intro hact
    simp [handleDeleteTestRun, hfound, hact]
  · intro h1 h2
    have hcond : ¬ (tr.status = testRunStatusRunning ∨ tr.status = testRunStatusWaiting) := by
      intro hc
      rcases hc with hc | hc
      exacts [h1 hc, h2 hc]
    by_cases hcur : c.currentTestRun = some id
    · simp [handleDeleteTestRun, hfound, hcond, hcur]
    · simp [handleDeleteTestRun, hfound, hcond, hcur]

/-- Witness for C5: a single completed run is deleted: 200, all maps
emptied, pointer cleared. -/
theorem handleDeleteTestRun_spec_witness :
    ((⟨[("r2", ⟨"r2", "t", "completed", none, none, none⟩)], some "r2", [],
        [("r2", ⟨"r2", "t", "completed", none, none, none⟩)]⟩ :
        Coordinator).testRuns.lookup "r2"
      = some ⟨"r2", "t", "completed", none, none, none⟩)
    ∧ (("completed" : String) ≠ testRunStatusRunning)
    ∧ (("completed" : String) ≠ testRunStatusWaiting)
    ∧ ((handleDeleteTestRun
        ⟨[("r2", ⟨"r2", "t", "completed", none, none, none⟩)], some "r2", [],
          [("r2", ⟨"r2", "t", "completed", none, none, none⟩)]⟩ "r2").2
      = ⟨200, [("message", "Test run deleted")]⟩) := by
  refine ⟨by decide, by decide, by decide, ?_⟩
  have h := handleDeleteTestRun_spec
      ⟨[("r2", ⟨"r2", "t", "completed", none, none, none⟩)], some "r2", [],
        [("r2", ⟨"r2", "t", "completed", none, none, none⟩)]⟩ "r2"
      ⟨"r2", "t", "completed", none, none, none⟩ (by decide)
  exact (h.2 (by decide) (by decide)).1

/-! ## C6: run finalisation -/

/-- C6 (code bug): on the normal completion path `testRun.CompletedAt` is
still nil when `completeTestRun` computes the aggregate, so the stored
`requests_per_sec` is 0; with 100 requests and a 10-second run the claimed
formula gives 10 ≠ 0.  (`TestRun.Complete` only assigns `CompletedAt`
after the results are built.) -/
theorem completeTestRun_requestsPerSec_zero :
    (Option.map TestRunResults.requestsPerSec
        (Option.bind
          ((completeTestRun
            ⟨[("r1", ⟨"r1", "load", "running", some 0, none, none⟩)], some "r1",
              [("r1", [⟨"a1", 100, 0, 5, 1, 9, [("200", 100)]⟩])],
              [("r1", ⟨"r1", "load", "running", some 0, none, none⟩)]⟩
            "r1" 10000000000).testRuns.lookup "r1")
          TestRun.results)
      = some 0)
    ∧ (Option.map TestRunResults.totalRequests
        (Option.bind
          ((completeTestRun
            ⟨[("r1", ⟨"r1", "load", "running", some 0, none, none⟩)], some "r1",
              [("r1", [⟨"a1", 100, 0, 5, 1, 9, [("200", 100)]⟩])],
              [("r1", ⟨"r1", "load", "running", some 0, none, none⟩)]⟩
            "r1" 10000000000).testRuns.lookup "r1")
          TestRun.results)
      = some 100)
    ∧ (Option.map TestRun.completedAt
        ((completeTestRun
          ⟨[("r1", ⟨"r1", "load", "running", some 0, none, none⟩)], some "r1",
            [("r1", [⟨"a1", 100, 0, 5, 1, 9, [("200", 100)]⟩])],
            [("r1", ⟨"r1", "load", "running", some 0, none, none⟩)]⟩
          "r1" 10000000000).testRuns.lookup "r1")
      = some (some 10000000000))
    ∧ (100 : ℚ) / (((10000000000 - 0 : Int) : ℚ) / 1000000000) = 10
    ∧ (0 : ℚ) ≠ 10 := by
  refine ⟨by decide, by decide, by decide, by norm_num, by norm_num⟩

/-! ## C8: ramp-up strategy validation -/

/-- The per-phase validation loop errs iff some phase has an unparseable
duration, a negative concurrency, or an unknown mode. -/
theorem validatePhases_isSome (ps : List RampPhase) : ∀ i : Nat,
    (validatePhases i ps).isSome ↔
      ∃ p ∈ ps, p.duration = none ∨ p.concurrency < 0
        ∨ (p.mode ≠ "parallel" ∧ p.mode ≠ "sequential") := by
  induction ps with
  | nil => intro i; simp [validatePhases]
  | cons p rest ih =>
    intro i
    simp only [validatePhases]
    by_cases h1 : p.duration = none
    · simp [h1]
    · by_cases h2 : p.concurrency < 0
      · simp [h1, h2]
      · by_cases h3 : p.mode ≠ "parallel" ∧ p.mode ≠ "sequential"
        · simp [h1, h2, h3]
        · simp [h1, h2, h3, ih (i + 1)]

/-- C8 counterexample: an `immediate` strategy with a parseable total
duration but a thoroughly invalid phase entry passes validation (phase
checks run only in the step/custom branch), although the claimed
error condition — some phase has an unparseable duration / negative
concurrency / unknown mode — holds. -/
theorem validateRampUpStrategy_ignores_phases_for_immediate :
    ValidateRampUpStrategy ⟨"immediate", some 1000000000, [⟨none, -1, "bogus"⟩]⟩ = none
    ∧ ∃ p ∈ ([⟨none, -1, "bogus"⟩] : List RampPhase),
        p.duration = none ∨ p.concurrency < 0
          ∨ (p.mode ≠ "parallel" ∧ p.mode ≠ "sequential") :=
  ⟨by decide, ⟨⟨none, -1, "bogus"⟩, by simp, Or.inl rfl⟩⟩

/-- C8 (amended): validation returns an error iff the strategy duration is
unparseable, or the type is none of immediate/linear/step/custom, or the
type is step or custom and (the phase list is empty, or some phase has an
unparseable duration, a negative concurrency, or a mode other than
parallel/sequential).  For immediate and linear strategies the phase list
is not inspected. -/
theorem validateRampUpStrategy_isSome_iff (s : RampUpStrategy) :
    (ValidateRampUpStrategy s).isSome ↔
      (s.duration = none
      ∨ (s.type ≠ rampUpTypeImmediate ∧ s.type ≠ rampUpTypeLinear
          ∧ s.type ≠ rampUpTypeStep ∧ s.type ≠ rampUpTypeCustom)
      ∨ ((s.type = rampUpTypeStep ∨ s.type = rampUpTypeCustom)
          ∧ (s.phases = []
            ∨ ∃ p ∈ s.phases, p.duration = none ∨ p.concurrency < 0
              ∨ (p.mode ≠ "parallel" ∧ p.mode ≠ "sequential")))) := by
  have hd1 : rampUpTypeImmediate ≠ rampUpTypeStep := by decide
  have hd2 : rampUpTypeImmediate ≠ rampUpTypeCustom := by decide
  have hd3 : rampUpTypeLinear ≠ rampUpTypeStep := by decide
  have hd4 : rampUpTypeLinear ≠ rampUpTypeCustom := by decide
  have hd5 : rampUpTypeStep ≠ rampUpTypeImmediate := by decide
  have hd6 : rampUpTypeStep ≠ rampUpTypeLinear := by decide
  have hd7 : rampUpTypeCustom ≠ rampUpTypeImmediate := by decide
  have hd8 : rampUpTypeCustom ≠ rampUpTypeLinear := by decide
  unfold ValidateRampUpStrategy
  by_cases hdur : s.duration = none
  · simp [hdur]
  · rw [if_neg hdur]
    by_cases him : s.type = rampUpTypeImmediate ∨ s.type = rampUpTypeLinear
    · rw [if_pos him]
      rcases him with h | h
      · simp [hdur, h, hd1, hd2]
      · simp [hdur, h, hd3, hd4]
    · rw [if_neg him]
      by_cases hsc : s.type = rampUpTypeStep ∨ s.type = rampUpTypeCustom
      · rw [if_pos hsc]
        by_cases hph : s.phases = []
        · rcases hsc with h | h
          · simp [hdur, hph, h, hd5, hd6]
          · simp [hdur, hph, h, hd7, hd8]
        · rw [if_neg hph]
          rw [validatePhases_isSome s.phases 0]
          rcases hsc with h | h
          · simp [hdur, hph, h, hd5, hd6]
          · simp [hdur, hph, h, hd7, hd8]
      · rw [if_neg hsc]
        push_neg at him hsc
        simp [hdur, him.1, him.2, hsc.1, hsc.2]

end Armonite
